import Mathlib

/-!
Verification of the ColorCodingGlobal annotation engine.

This file gives a shallow embedding of the two core functions of
`src/__init__.py`:

* `build_combined_regex` (lines 491-525): turns a word→color table plus
  `ColoringOptions` into a combined alternation pattern and a key map.
  The alternation is modelled as a list of `Alt` records, each describing
  one alternative of the Python pattern: a literal (the `re.escape`d word,
  possibly with a trailing `s`), optional `\b` anchors on each side, and an
  optional trailing negative lookahead `(?!s)`.  The textual pattern that
  Python would compile is also reproduced (`patternString`), since the code
  tests its truthiness.

* `apply_color_coding_to_html` (lines 530-604): strips previously applied
  `cc-color` wrapper spans (re.sub with a DOTALL+IGNORECASE pattern),
  splits the fragment on `(<[^>]+>)` into alternating text/tag chunks,
  and runs `regex.subn` with the `repl` closure on eligible text chunks.

Regex semantics are specialised to the exact patterns the code builds:
leftmost scanning position, alternatives tried in listed order at each
position, `\b` as an ASCII word-character boundary, IGNORECASE as
`Char.toLower` folding, the lazy `(.*?)</span>` group as the first
(case-insensitive) occurrence of `</span>`, and Python >= 3.7 handling of
zero-width matches in `subn` (replace, copy one character, continue).
Scanners use an explicit fuel argument (one more than the input length) in
place of Python's loop; every step consumes at least one character, so the
fuel never runs out on the actual calls.
-/

namespace ColorCoding

/-- Options record of the Python `ColoringOptions` dataclass. -/
structure ColoringOptions where
  whole_words : Bool := true
  case_insensitive : Bool := true
  bold : Bool := true
  italic : Bool := false
  bold_plurals : Bool := true
  colorize : Bool := true
deriving DecidableEq, Repr

/-- One alternative of the combined pattern: a literal (an escaped word,
possibly already carrying the trailing `s` of a plural alternative),
optional word-boundary anchors, and the optional `(?!s)` lookahead. -/
structure Alt where
  lit : String
  leftB : Bool
  rightB : Bool
  negS : Bool
deriving DecidableEq, Repr

/-- Compiled pattern: the alternatives in order plus the IGNORECASE flag. -/
structure Compiled where
  alts : List Alt
  ci : Bool
deriving DecidableEq, Repr

/-- Word character for `\b`, Python `\w` restricted to ASCII. -/
def isWordChar (c : Char) : Bool := c.isAlphanum || c == '_'

def optIsWord : Option Char → Bool
  | some c => isWordChar c
  | none => false

/-- `\b` between (character before, character after). -/
def boundaryAt (a b : Option Char) : Bool := optIsWord a != optIsWord b

/-- Character comparison under the IGNORECASE flag. -/
def ciChar (ci : Bool) (p c : Char) : Bool :=
  if ci then p.toLower == c.toLower else p == c

/-- Does the literal match a prefix of the text (flag-sensitive)? -/
def litMatches (ci : Bool) : List Char → List Char → Bool
  | [], _ => true
  | _ :: _, [] => false
  | p :: ps, c :: cs => ciChar ci p c && litMatches ci ps cs

/-- Last character of the matched text, falling back to the character
before the match for a zero-width literal. -/
def lastOpt (prev : Option Char) (l : List Char) : Option Char :=
  match l.getLast? with
  | some c => some c
  | none => prev

/-- The `(?!s)` negative lookahead; under IGNORECASE it also rejects `S`. -/
def negLookS (ci : Bool) : Option Char → Bool
  | some c => !(c == 's' || (ci && c == 'S'))
  | none => true

/-- Does alternative `a` match at the current position?  `prev` is the
character immediately before the position (`none` at the chunk start). -/
def altMatches (ci : Bool) (a : Alt) (prev : Option Char) (rest : List Char) : Bool :=
  litMatches ci a.lit.data rest &&
  (!a.leftB || boundaryAt prev rest.head?) &&
  (!a.rightB || boundaryAt (lastOpt prev (rest.take a.lit.data.length))
      ((rest.drop a.lit.data.length).head?)) &&
  (!a.negS || negLookS ci ((rest.drop a.lit.data.length).head?))

/-- First alternative (in listed order) matching at this position;
returns the length of the matched text.  This is Python's alternation
rule: at a given position the leftmost listed alternative wins. -/
def firstMatch (ci : Bool) : List Alt → Option Char → List Char → Option Nat
  | [], _, _ => none
  | a :: tl, prev, rest =>
    if altMatches ci a prev rest then some a.lit.data.length
    else firstMatch ci tl prev rest

/-- Python dict lookup for a dict built by successive assignment from the
listed pairs: the last binding of a key wins. -/
def dictGet (m : List (String × String)) (k : String) : Option String :=
  m.foldl (fun acc p => if p.1 = k then some p.2 else acc) none

/-- Key order of a Python dict built from the listed pairs: first
occurrence of each key. -/
def dedupKeys (l : List String) : List String :=
  l.foldl (fun acc k => if acc.contains k then acc else acc ++ [k]) []

/-- Items of the Python dict built from the listed pairs. -/
def dictItems (t : List (String × String)) : List (String × String) :=
  (dedupKeys (t.map Prod.fst)).filterMap (fun k => (dictGet t k).map (fun v => (k, v)))

/-- Insert a word into a list sorted by length descending, after all words
of greater or equal length: together with `sortKeysDesc` this implements
Python's stable `sorted(keys, key=len, reverse=True)`. -/
def insertByLen (w : String) : List String → List String
  | [] => [w]
  | x :: xs => if x.length < w.length then w :: x :: xs else x :: insertByLen w xs

/-- Stable sort by character length, descending. -/
def sortKeysDesc (l : List String) : List String :=
  l.foldl (fun acc w => insertByLen w acc) []

/-- Python `re.escape` (3.7+): escape everything except ASCII
alphanumerics and underscore. -/
def reEscape (w : String) : String :=
  String.mk (w.data.foldr
    (fun c acc => if c.isAlphanum || c == '_' then c :: acc else '\\' :: c :: acc) [])

/-- The textual regex of one alternative, exactly as the Python code
builds it (the literal of a plural alternative is `w ++ "s"`, and
`re.escape w ++ "s" = re.escape (w ++ "s")` since `s` is alphanumeric). -/
def altPattern (a : Alt) : String :=
  (if a.leftB then "\\b" else "") ++ reEscape a.lit ++
  (if a.negS then "(?!s)" else "") ++ (if a.rightB then "\\b" else "")

/-- Python `"|".join`. -/
def joinBar : List String → String
  | [] => ""
  | [s] => s
  | s :: s2 :: tl => s ++ "|" ++ joinBar (s2 :: tl)

/-- The textual pattern handed to `re.compile`; the never-matching
`(?!x)x` when the table is empty. -/
def patternString (alts : List Alt) : String :=
  if alts.isEmpty then "(?!x)x" else joinBar (alts.map altPattern)

/-- Alternatives emitted for one word, per the wholeWords × boldPlurals
policy of `build_combined_regex` (lines 505-519). -/
def altsForWord (o : ColoringOptions) (w : String) : List Alt :=
  if o.whole_words then
    ⟨w, true, true, false⟩ ::
      (if o.bold_plurals then [⟨w ++ "s", true, true, false⟩] else [])
  else if o.bold_plurals then
    [⟨w, false, false, false⟩, ⟨w ++ "s", false, false, false⟩]
  else
    [⟨w, false, false, true⟩]

/-- Alternatives for the whole (sorted) word list, in order. -/
def altsOfWords (o : ColoringOptions) : List String → List Alt
  | [] => []
  | w :: ws => altsForWord o w ++ altsOfWords o ws

/-- `build_combined_regex` (lines 491-525): sort the table's keys by
length descending (stably), emit the alternatives, and build the key map
(keys lowercased if case-insensitive; a later item overwrites an earlier
one on collision, which `dictGet` realises by letting the last pair win). -/
def build_combined_regex (t : List (String × String)) (o : ColoringOptions) :
    Compiled × List (String × String) :=
  (⟨altsOfWords o (sortKeysDesc (dedupKeys (t.map Prod.fst))), o.case_insensitive⟩,
   (dictItems t).map (fun p => (if o.case_insensitive then String.mk (p.1.data.map Char.toLower) else p.1, p.2)))

/-- Lowercasing of a string, character by character (Python `str.lower`
restricted to ASCII, which is all the engine's own markup uses). -/
def strLower (s : String) : String := String.mk (s.data.map Char.toLower)

/-- Lookup key of a matched text (line 552). -/
def lookupKey (o : ColoringOptions) (m : String) : String :=
  if o.case_insensitive then strLower m else m

/-- Python `matched_text.lower().endswith("s")`. -/
def endsWithS (m : String) : Bool :=
  match m.data.getLast? with
  | some c => c.toLower == 's'
  | none => false

/-- Python `matched_text[:-1]`. -/
def strDropLast (m : String) : String := String.mk m.data.dropLast

/-- Colour resolution for one match (lines 550-567): direct lookup, then
the plural-stem fallback (only when `bold_plurals`), then the last-chance
lowercased lookup (only when `case_insensitive`).  The second component is
the `is_plural` flag, which affects nothing downstream. -/
def resolveColor (km : List (String × String)) (o : ColoringOptions) (m : String) :
    Option String × Bool :=
  match dictGet km (lookupKey o m) with
  | some c => (some c, false)
  | none =>
    if o.bold_plurals && endsWithS m then
      match dictGet km (lookupKey o (strDropLast m)) with
      | some c => (some c, true)
      | none => (if o.case_insensitive then dictGet km (strLower m) else none, false)
    else (if o.case_insensitive then dictGet km (strLower m) else none, false)

/-- Style declarations, one per enabled toggle (lines 572-584). -/
def styleBits (o : ColoringOptions) (color : String) : List String :=
  (if o.colorize then ["color:" ++ color ++ ";"] else []) ++
  (if o.bold then ["font-weight:bold;"] else []) ++
  (if o.italic then ["font-style:italic;"] else [])

/-- Python `" ".join`. -/
def joinSpace : List String → String
  | [] => ""
  | [s] => s
  | s :: s2 :: tl => s ++ " " ++ joinSpace (s2 :: tl)

/-- The wrapper span emitted for a styled match (line 592). -/
def wrapSpan (style m : String) : String :=
  "<span class=\"cc-color\" style=\"" ++ style ++ "\">" ++ m ++ "</span>"

/-- The `repl` closure (lines 546-592): resolve a colour, assemble the
style, and either wrap the match (counting it) or return it unchanged. -/
def replOne (km : List (String × String)) (o : ColoringOptions) (m : String) :
    String × Bool :=
  match (resolveColor km o m).1 with
  | none => (m, false)
  | some color =>
    if (styleBits o color).isEmpty then (m, false)
    else (wrapSpan (joinSpace (styleBits o color)) m, true)

/-- One step list for `regex.subn` over a single text chunk.  Returns
(new text, number of matches, number of wrapped matches): Python's `subn`
count is the number of matches, while `total_replacements` only counts
matches that `repl` actually wrapped. -/
def subnGo (P : Compiled) (km : List (String × String)) (o : ColoringOptions) :
    Nat → Option Char → List Char → List Char × Nat × Nat
  | 0, _, rest => (rest, 0, 0)
  | Nat.succ fuel, prev, rest =>
    match firstMatch P.ci P.alts prev rest with
    | none =>
      match rest with
      | [] => ([], 0, 0)
      | c :: cs =>
        let r := subnGo P km o fuel (some c) cs
        (c :: r.1, r.2)
    | some len =>
      let rep := replOne km o (String.mk (rest.take len))
      let cnt : Nat := if rep.2 then 1 else 0
      if len = 0 then
        match rest with
        | [] => (rep.1.data, 1, cnt)
        | c :: cs =>
          let r := subnGo P km o fuel (some c) cs
          (rep.1.data ++ c :: r.1, r.2.1 + 1, r.2.2 + cnt)
      else
        let r := subnGo P km o fuel (lastOpt prev (rest.take len)) (rest.drop len)
        (rep.1.data ++ r.1, r.2.1 + 1, r.2.2 + cnt)

/-- `regex.subn(repl, chunk)` on one text chunk. -/
def subnChunk (P : Compiled) (km : List (String × String)) (o : ColoringOptions)
    (chunk : List Char) : List Char × Nat × Nat :=
  subnGo P km o (chunk.length + 1) none chunk

def ccMarker : List Char := "cc-color".data

/-- Literal opening of the strip pattern, `<span class="cc-color`
followed by `"` (the pattern text before `[^>]*>`). -/
def ccOpen : List Char := "<span class=\"cc-color\"".data

def ccClose : List Char := "</span>".data

/-- Case-insensitive "starts with" (the strip regex is IGNORECASE). -/
def ciStarts : List Char → List Char → Bool
  | [], _ => true
  | _ :: _, [] => false
  | p :: ps, c :: cs => (p.toLower == c.toLower) && ciStarts ps cs

/-- Consume `[^>]*>`: skip to just past the first `>`, failing if none. -/
def dropUntilGt : List Char → Option (List Char)
  | [] => none
  | c :: cs => if c = '>' then some cs else dropUntilGt cs

/-- The lazy `(.*?)</span>` group (DOTALL, IGNORECASE): split at the first
case-insensitive occurrence of `</span>`, returning the content before it
and the text after it. -/
def findClose : List Char → Option (List Char × List Char)
  | [] => none
  | c :: cs =>
    if ciStarts ccClose (c :: cs) then some ([], (c :: cs).drop ccClose.length)
    else
      match findClose cs with
      | some pr => some (c :: pr.1, pr.2)
      | none => none

/-- Scanner for the strip `re.sub` (line 540): at each position try to
match `<span class="cc-color"[^>]*>(.*?)</span>`; on success emit the
group and continue after the match, otherwise move one character on. -/
def stripGo : Nat → List Char → List Char
  | 0, rest => rest
  | Nat.succ fuel, rest =>
    match rest with
    | [] => []
    | c :: cs =>
      if ciStarts ccOpen (c :: cs) then
        match dropUntilGt ((c :: cs).drop ccOpen.length) with
        | some afterGt =>
          match findClose afterGt with
          | some pr => pr.1 ++ stripGo fuel pr.2
          | none => c :: stripGo fuel cs
        | none => c :: stripGo fuel cs
      else c :: stripGo fuel cs

/-- Normalisation step: remove previous wrapper spans. -/
def stripAnnotations (s : String) : String :=
  String.mk (stripGo (s.data.length + 1) s.data)

/-- Scanner for `re.split (r"(<[^>]+>)")`: text and tag chunks alternate,
text first; a tag is a `<`, at least one non-`>` character, then `>`. -/
def splitTagsGo : Nat → List Char → List Char → List (List Char)
  | 0, cur, rest => [cur.reverse ++ rest]
  | Nat.succ fuel, cur, rest =>
    match rest with
    | [] => [cur.reverse]
    | c :: cs =>
      if c = '<' then
        match cs.takeWhile (fun d => !(d == '>')), cs.dropWhile (fun d => !(d == '>')) with
        | t@(_ :: _), '>' :: rest2 =>
          cur.reverse :: ('<' :: (t ++ ['>'])) :: splitTagsGo fuel [] rest2
        | _, _ => splitTagsGo fuel (c :: cur) cs
      else splitTagsGo fuel (c :: cur) cs

def splitTags (l : List Char) : List (List Char) :=
  splitTagsGo (l.length + 1) [] l

/-- Python `"cc-color" in chunk` (case-sensitive substring test). -/
def containsSub (pat : List Char) : List Char → Bool
  | [] => pat.isEmpty
  | c :: tl => pat.isPrefixOf (c :: tl) || containsSub pat tl

/-- Per-chunk processing (lines 594-600): only even-indexed (text) chunks
that are non-empty and do not contain the marker are searched. -/
def processChunk (P : Compiled) (km : List (String × String)) (o : ColoringOptions)
    (i : Nat) (chunk : List Char) : List Char × Nat × Nat :=
  if (i % 2 == 0 && !chunk.isEmpty && !containsSub ccMarker chunk) = true then
    subnChunk P km o chunk
  else (chunk, 0, 0)

/-- Results of processing every chunk of the (already stripped) fragment. -/
def chunkResults (P : Compiled) (km : List (String × String)) (o : ColoringOptions)
    (s : String) : List (List Char × Nat × Nat) :=
  (splitTags s.data).enum.map (fun p => processChunk P km o p.1 p.2)

/-- Lines 542-604 after the strip: split, process chunks, and either
reassemble (when some chunk had a match) or return the stripped fragment
with count 0. -/
def annotateStripped (P : Compiled) (km : List (String × String)) (o : ColoringOptions)
    (s : String) : String × Nat :=
  if ((chunkResults P km o s).any fun r => r.2.1 != 0) = true then
    (String.mk (((chunkResults P km o s).map fun r => r.1).flatten),
     ((chunkResults P km o s).map fun r => r.2.2).sum)
  else (s, 0)

/-- `apply_color_coding_to_html` (lines 530-604).  The guard mirrors
`if not html or not regex.pattern`. -/
def apply_color_coding_to_html (html : String) (P : Compiled)
    (key_to_color : List (String × String)) (o : ColoringOptions) : String × Nat :=
  if html = "" ∨ patternString P.alts = "" then (html, 0)
  else annotateStripped P key_to_color o (stripAnnotations html)

/-- Annotation of a fragment with the pattern compiled from `t` and `o`:
the composition the batch driver performs for every field. -/
def annotateT (t : List (String × String)) (o : ColoringOptions) (h : String) :
    String × Nat :=
  apply_color_coding_to_html h (build_combined_regex t o).1 (build_combined_regex t o).2 o

end ColorCoding

namespace ColorCoding

/-! Helper lemmas -/

theorem str_ne_empty_of_len {s : String} (h : 1 ≤ s.length) : s ≠ "" := by
  intro he
  subst he
  have h0 : ("" : String).length = 0 := rfl
  omega

theorem joinBar_len_le (x : String) (l : List String) :
    x.length ≤ (joinBar (x :: l)).length := by
  cases l with
  | nil => simp [joinBar]
  | cons y tl =>
    simp [joinBar, String.length_append]
    omega

theorem altPattern_leftB_len (a : Alt) (h : a.leftB = true) :
    2 ≤ (altPattern a).length := by
  have h2 : ("\\b" : String).length = 2 := rfl
  simp [altPattern, h, String.length_append]
  omega

theorem altPattern_negS_len (a : Alt) (h : a.negS = true) :
    5 ≤ (altPattern a).length := by
  have h5 : ("(?!s)" : String).length = 5 := rfl
  simp [altPattern, h, String.length_append]
  omega

theorem patternString_alts_ne (o : ColoringOptions) (ws : List String) :
    patternString (altsOfWords o ws) ≠ "" := by
  cases ws with
  | nil =>
    simp [altsOfWords, patternString]
  | cons w ws' =>
    apply str_ne_empty_of_len
    rcases hww : o.whole_words
    · rcases hbp : o.bold_plurals
      · have halts : altsOfWords o (w :: ws') =
            ⟨w, false, false, true⟩ :: altsOfWords o ws' := by
          simp [altsOfWords, altsForWord, hww, hbp]
        rw [halts]
        have hp : patternString (Alt.mk w false false true :: altsOfWords o ws') =
            joinBar (altPattern ⟨w, false, false, true⟩ :: (altsOfWords o ws').map altPattern) := by
          simp [patternString]
        rw [hp]
        have := joinBar_len_le (altPattern ⟨w, false, false, true⟩) ((altsOfWords o ws').map altPattern)
        have := altPattern_negS_len ⟨w, false, false, true⟩ rfl
        omega
      · have halts : altsOfWords o (w :: ws') =
            ⟨w, false, false, false⟩ :: ⟨w ++ "s", false, false, false⟩ :: altsOfWords o ws' := by
          simp [altsOfWords, altsForWord, hww, hbp]
        rw [halts]
        have hp : patternString (Alt.mk w false false false :: Alt.mk (w ++ "s") false false false :: altsOfWords o ws') =
            altPattern ⟨w, false, false, false⟩ ++ "|" ++
              joinBar (altPattern ⟨w ++ "s", false, false, false⟩ :: (altsOfWords o ws').map altPattern) := by
          simp [patternString, joinBar]
        rw [hp]
        have h1 : ("|" : String).length = 1 := rfl
        simp [String.length_append]
        omega
    · have halts : ∃ tl, altsOfWords o (w :: ws') = ⟨w, true, true, false⟩ :: tl := by
        refine ⟨(if o.bold_plurals then [⟨w ++ "s", true, true, false⟩] else []) ++ altsOfWords o ws', ?_⟩
        simp [altsOfWords, altsForWord, hww]
      rcases halts with ⟨tl, htl⟩
      rw [htl]
      have hp : patternString (Alt.mk w true true false :: tl) =
          joinBar (altPattern ⟨w, true, true, false⟩ :: tl.map altPattern) := by
        simp [patternString]
      rw [hp]
      have := joinBar_len_le (altPattern ⟨w, true, true, false⟩) (tl.map altPattern)
      have := altPattern_leftB_len ⟨w, true, true, false⟩ rfl
      omega

theorem patternString_build_ne (t : List (String × String)) (o : ColoringOptions) :
    patternString (build_combined_regex t o).1.alts ≠ "" :=
  patternString_alts_ne o (sortKeysDesc (dedupKeys (t.map Prod.fst)))

theorem apply_eq_core (html : String) (P : Compiled) (km : List (String × String))
    (o : ColoringOptions) (hp : patternString P.alts ≠ "") :
    apply_color_coding_to_html html P km o =
      annotateStripped P km o (stripAnnotations html) := by
  unfold apply_color_coding_to_html
  by_cases hh : html = ""
  · subst hh
    rw [if_pos (Or.inl rfl)]
    rfl
  · rw [if_neg (by
      intro hor
      rcases hor with h1 | h2
      · exact hh h1
      · exact hp h2)]

theorem annotateT_eq_core (t : List (String × String)) (o : ColoringOptions) (h : String) :
    annotateT t o h =
      annotateStripped (build_combined_regex t o).1 (build_combined_regex t o).2 o
        (stripAnnotations h) := by
  unfold annotateT
  exact apply_eq_core h _ _ o (patternString_build_ne t o)

end ColorCoding

namespace ColorCoding

theorem splitTagsGo_flatten : ∀ (fuel : Nat) (cur rest : List Char),
    (splitTagsGo fuel cur rest).flatten = cur.reverse ++ rest := by
  intro fuel
  induction fuel with
  | zero => intro cur rest; simp [splitTagsGo]
  | succ fuel ih =>
    intro cur rest
    cases rest with
    | nil => simp [splitTagsGo]
    | cons c cs =>
      simp only [splitTagsGo]
      by_cases hc : c = '<'
      · rw [if_pos hc]
        subst hc
        split
        · rename_i t0 ts rest2 htw hdw
          have hcs : cs = (t0 :: ts) ++ ('>' :: rest2) := by
            conv_lhs => rw [← List.takeWhile_append_dropWhile (fun d => !(d == '>')) cs]
            rw [htw, hdw]
          simp [ih, hcs]
        · simp [ih]
      · rw [if_neg hc]
        simp [ih]

theorem splitTags_flatten (l : List Char) : (splitTags l).flatten = l := by
  unfold splitTags
  rw [splitTagsGo_flatten]
  simp

theorem replOne_of_not_counted (km : List (String × String)) (o : ColoringOptions)
    (m : String) (h : (replOne km o m).2 = false) : (replOne km o m).1 = m := by
  unfold replOne at h ⊢
  rcases hres : (resolveColor km o m).1 with _ | c
  · simp
  · rw [hres] at h
    by_cases hb : (styleBits o c).isEmpty
    · simp [hb]
    · simp [hb] at h

theorem replOne_alloff (km : List (String × String)) (o : ColoringOptions) (m : String)
    (hc : o.colorize = false) (hb : o.bold = false) (hi : o.italic = false) :
    replOne km o m = (m, false) := by
  unfold replOne
  rcases hres : (resolveColor km o m).1 with _ | c
  · rfl
  · simp [styleBits, hc, hb, hi]

theorem subnGo_none_nil (P : Compiled) (km : List (String × String)) (o : ColoringOptions)
    (fuel : Nat) (prev : Option Char)
    (hfm : firstMatch P.ci P.alts prev [] = none) :
    subnGo P km o (fuel + 1) prev [] = ([], 0, 0) := by
  simp only [subnGo]
  rw [hfm]

theorem subnGo_none_cons (P : Compiled) (km : List (String × String)) (o : ColoringOptions)
    (fuel : Nat) (prev : Option Char) (c : Char) (cs : List Char)
    (hfm : firstMatch P.ci P.alts prev (c :: cs) = none) :
    subnGo P km o (fuel + 1) prev (c :: cs) =
      (c :: (subnGo P km o fuel (some c) cs).1, (subnGo P km o fuel (some c) cs).2) := by
  simp only [subnGo]
  rw [hfm]

theorem subnGo_zero_nil (P : Compiled) (km : List (String × String)) (o : ColoringOptions)
    (fuel : Nat) (prev : Option Char)
    (hfm : firstMatch P.ci P.alts prev [] = some 0) :
    subnGo P km o (fuel + 1) prev [] =
      ((replOne km o (String.mk [])).1.data, 1,
       if (replOne km o (String.mk [])).2 = true then 1 else 0) := by
  simp only [subnGo]
  rw [hfm]
  rfl

theorem subnGo_zero_cons (P : Compiled) (km : List (String × String)) (o : ColoringOptions)
    (fuel : Nat) (prev : Option Char) (c : Char) (cs : List Char)
    (hfm : firstMatch P.ci P.alts prev (c :: cs) = some 0) :
    subnGo P km o (fuel + 1) prev (c :: cs) =
      ((replOne km o (String.mk [])).1.data ++ c :: (subnGo P km o fuel (some c) cs).1,
       (subnGo P km o fuel (some c) cs).2.1 + 1,
       (subnGo P km o fuel (some c) cs).2.2 +
         if (replOne km o (String.mk [])).2 = true then 1 else 0) := by
  simp only [subnGo]
  rw [hfm]
  rfl

theorem subnGo_succ_len (P : Compiled) (km : List (String × String)) (o : ColoringOptions)
    (fuel : Nat) (prev : Option Char) (rest : List Char) (k : Nat)
    (hfm : firstMatch P.ci P.alts prev rest = some (k + 1)) :
    subnGo P km o (fuel + 1) prev rest =
      ((replOne km o (String.mk (rest.take (k + 1)))).1.data ++
         (subnGo P km o fuel (lastOpt prev (rest.take (k + 1))) (rest.drop (k + 1))).1,
       (subnGo P km o fuel (lastOpt prev (rest.take (k + 1))) (rest.drop (k + 1))).2.1 + 1,
       (subnGo P km o fuel (lastOpt prev (rest.take (k + 1))) (rest.drop (k + 1))).2.2 +
         if (replOne km o (String.mk (rest.take (k + 1)))).2 = true then 1 else 0) := by
  simp only [subnGo]
  rw [hfm]
  rfl

theorem subnGo_fst_of_wraps_zero (P : Compiled) (km : List (String × String))
    (o : ColoringOptions) : ∀ (fuel : Nat) (prev : Option Char) (rest : List Char),
    (subnGo P km o fuel prev rest).2.2 = 0 → (subnGo P km o fuel prev rest).1 = rest := by
  intro fuel
  induction fuel with
  | zero => intro prev rest _; rfl
  | succ fuel ih =>
    intro prev rest h
    rcases hfm : firstMatch P.ci P.alts prev rest with _ | len
    · cases rest with
      | nil => rw [subnGo_none_nil P km o fuel prev hfm]
      | cons c cs =>
        rw [subnGo_none_cons P km o fuel prev c cs hfm] at h ⊢
        simp only at h ⊢
        rw [ih (some c) cs h]
    · cases len with
      | zero =>
        cases rest with
        | nil =>
          rw [subnGo_zero_nil P km o fuel prev hfm] at h ⊢
          simp only at h ⊢
          have hrep : (replOne km o (String.mk ([] : List Char))).2 = false := by
            rcases hbb : (replOne km o (String.mk ([] : List Char))).2
            · rfl
            · rw [hbb] at h; simp at h
          rw [replOne_of_not_counted km o _ hrep]
        | cons c cs =>
          rw [subnGo_zero_cons P km o fuel prev c cs hfm] at h ⊢
          simp only at h ⊢
          have hz : (subnGo P km o fuel (some c) cs).2.2 = 0 ∧
              (replOne km o (String.mk [])).2 = false := by
            rcases hbb : (replOne km o (String.mk ([] : List Char))).2
            · rw [hbb] at h; simp at h; exact ⟨h, rfl⟩
            · rw [hbb] at h; simp at h
          rw [replOne_of_not_counted km o _ hz.2, ih (some c) cs hz.1]
          rfl
      | succ k =>
        rw [subnGo_succ_len P km o fuel prev rest k hfm] at h ⊢
        simp only at h ⊢
        have hz : (subnGo P km o fuel (lastOpt prev (rest.take (k + 1))) (rest.drop (k + 1))).2.2 = 0 ∧
            (replOne km o (String.mk (rest.take (k + 1)))).2 = false := by
          rcases hbb : (replOne km o (String.mk (rest.take (k + 1)))).2
          · rw [hbb] at h; simp at h; exact ⟨h, rfl⟩
          · rw [hbb] at h; simp at h
        rw [replOne_of_not_counted km o _ hz.2, ih _ _ hz.1]
        exact List.take_append_drop (k + 1) rest

theorem subnGo_wraps_of_never_counted (P : Compiled) (km : List (String × String))
    (o : ColoringOptions) (hrep : ∀ m, (replOne km o m).2 = false) :
    ∀ (fuel : Nat) (prev : Option Char) (rest : List Char),
    (subnGo P km o fuel prev rest).2.2 = 0 := by
  intro fuel
  induction fuel with
  | zero => intro prev rest; rfl
  | succ fuel ih =>
    intro prev rest
    rcases hfm : firstMatch P.ci P.alts prev rest with _ | len
    · cases rest with
      | nil => rw [subnGo_none_nil P km o fuel prev hfm]
      | cons c cs =>
        rw [subnGo_none_cons P km o fuel prev c cs hfm]
        simp only
        exact ih (some c) cs
    · cases len with
      | zero =>
        cases rest with
        | nil =>
          rw [subnGo_zero_nil P km o fuel prev hfm]
          simp only
          rw [hrep (String.mk [])]
          simp
        | cons c cs =>
          rw [subnGo_zero_cons P km o fuel prev c cs hfm]
          simp only
          rw [hrep (String.mk [])]
          simp [ih (some c) cs]
      | succ k =>
        rw [subnGo_succ_len P km o fuel prev rest k hfm]
        simp only
        rw [hrep (String.mk (rest.take (k + 1)))]
        simp [ih (lastOpt prev (rest.take (k + 1))) (rest.drop (k + 1))]

theorem subnGo_noalts (P : Compiled) (km : List (String × String)) (o : ColoringOptions)
    (halts : P.alts = []) : ∀ (fuel : Nat) (prev : Option Char) (rest : List Char),
    subnGo P km o fuel prev rest = (rest, 0, 0) := by
  have hfm : ∀ (prev : Option Char) (rest : List Char),
      firstMatch P.ci P.alts prev rest = none := by
    intro prev rest
    rw [halts]
    rfl
  intro fuel
  induction fuel with
  | zero => intro prev rest; rfl
  | succ fuel ih =>
    intro prev rest
    cases rest with
    | nil => rw [subnGo_none_nil P km o fuel prev (hfm prev [])]
    | cons c cs =>
      rw [subnGo_none_cons P km o fuel prev c cs (hfm prev (c :: cs))]
      rw [ih (some c) cs]

theorem processChunk_fst_of_wraps_zero (P : Compiled) (km : List (String × String))
    (o : ColoringOptions) (i : Nat) (chunk : List Char)
    (h : (processChunk P km o i chunk).2.2 = 0) :
    (processChunk P km o i chunk).1 = chunk := by
  unfold processChunk at h ⊢
  by_cases hg : (i % 2 == 0 && !chunk.isEmpty && !containsSub ccMarker chunk) = true
  · rw [if_pos hg] at h ⊢
    exact subnGo_fst_of_wraps_zero P km o _ none chunk h
  · rw [if_neg hg]

theorem processChunk_wraps_of_never_counted (P : Compiled) (km : List (String × String))
    (o : ColoringOptions) (hrep : ∀ m, (replOne km o m).2 = false) (i : Nat)
    (chunk : List Char) : (processChunk P km o i chunk).2.2 = 0 := by
  unfold processChunk
  by_cases hg : (i % 2 == 0 && !chunk.isEmpty && !containsSub ccMarker chunk) = true
  · rw [if_pos hg]
    exact subnGo_wraps_of_never_counted P km o hrep _ none chunk
  · rw [if_neg hg]

theorem processChunk_noalts (P : Compiled) (km : List (String × String))
    (o : ColoringOptions) (halts : P.alts = []) (i : Nat) (chunk : List Char) :
    processChunk P km o i chunk = (chunk, 0, 0) := by
  unfold processChunk
  by_cases hg : (i % 2 == 0 && !chunk.isEmpty && !containsSub ccMarker chunk) = true
  · rw [if_pos hg]
    exact subnGo_noalts P km o halts _ none chunk
  · rw [if_neg hg]

theorem annotateStripped_fst_of_snd_zero (P : Compiled) (km : List (String × String))
    (o : ColoringOptions) (s : String) (h : (annotateStripped P km o s).2 = 0) :
    (annotateStripped P km o s).1 = s := by
  unfold annotateStripped at h ⊢
  by_cases hc : ((chunkResults P km o s).any fun r => r.2.1 != 0) = true
  · rw [if_pos hc] at h ⊢
    simp only at h ⊢
    have hz : ∀ r ∈ chunkResults P km o s, r.2.2 = 0 := by
      intro r hr
      exact List.sum_eq_zero_iff.mp h _ (List.mem_map.mpr ⟨r, hr, rfl⟩)
    have hmap : ((chunkResults P km o s).map fun r => r.1) = splitTags s.data := by
      unfold chunkResults at hz ⊢
      rw [List.map_map]
      have hcongr : ∀ p ∈ (splitTags s.data).enum,
          ((fun r => r.1) ∘ fun p => processChunk P km o p.1 p.2) p = Prod.snd p := by
        intro p hp
        exact processChunk_fst_of_wraps_zero P km o p.1 p.2
          (hz _ (List.mem_map.mpr ⟨p, hp, rfl⟩))
      rw [List.map_congr_left hcongr, List.enum_map_snd]
    rw [hmap, splitTags_flatten]
  · rw [if_neg hc]

theorem annotateStripped_of_never_counted (P : Compiled) (km : List (String × String))
    (o : ColoringOptions) (s : String) (hrep : ∀ m, (replOne km o m).2 = false) :
    annotateStripped P km o s = (s, 0) := by
  have hsnd : (annotateStripped P km o s).2 = 0 := by
    unfold annotateStripped
    by_cases hc : ((chunkResults P km o s).any fun r => r.2.1 != 0) = true
    · rw [if_pos hc]
      simp only
      rw [List.sum_eq_zero_iff]
      intro x hx
      rcases List.mem_map.mp hx with ⟨r, hr, hxr⟩
      rcases List.mem_map.mp hr with ⟨p, _, hpr⟩
      rw [← hxr, ← hpr]
      exact processChunk_wraps_of_never_counted P km o hrep p.1 p.2
    · rw [if_neg hc]
  have hfst := annotateStripped_fst_of_snd_zero P km o s hsnd
  rw [Prod.ext_iff]
  exact ⟨hfst, hsnd⟩

theorem annotateStripped_noalts (P : Compiled) (km : List (String × String))
    (o : ColoringOptions) (s : String) (halts : P.alts = []) :
    annotateStripped P km o s = (s, 0) := by
  unfold annotateStripped
  have hc : ((chunkResults P km o s).any fun r => r.2.1 != 0) = false := by
    rw [List.any_eq_false]
    intro r hr
    rcases List.mem_map.mp hr with ⟨p, _, hpr⟩
    rw [← hpr, processChunk_noalts P km o halts p.1 p.2]
    simp
  rw [hc]
  rfl

theorem mem_insertByLen {y w : String} {l : List String} :
    y ∈ insertByLen w l ↔ y = w ∨ y ∈ l := by
  induction l with
  | nil => simp [insertByLen]
  | cons x xs ih =>
    simp only [insertByLen]
    by_cases hx : x.length < w.length
    · rw [if_pos hx]
      simp only [List.mem_cons]
    · rw [if_neg hx]
      simp only [List.mem_cons, ih]
      tauto

theorem pairwise_insertByLen {w : String} {l : List String}
    (h : List.Pairwise (fun a b => b.length ≤ a.length) l) :
    List.Pairwise (fun a b => b.length ≤ a.length) (insertByLen w l) := by
  induction l with
  | nil => simp [insertByLen]
  | cons x xs ih =>
    rcases List.pairwise_cons.mp h with ⟨hx, hxs⟩
    simp only [insertByLen]
    by_cases hlt : x.length < w.length
    · rw [if_pos hlt]
      refine List.pairwise_cons.mpr ⟨?_, h⟩
      intro y hy
      rcases List.mem_cons.mp hy with hyx | hyxs
      · subst hyx; omega
      · have := hx y hyxs; omega
    · rw [if_neg hlt]
      refine List.pairwise_cons.mpr ⟨?_, ih hxs⟩
      intro y hy
      rcases mem_insertByLen.mp hy with hyw | hyxs
      · subst hyw; omega
      · exact hx y hyxs

theorem filter_insertByLen_eq {w : String} {l : List String} {n : Nat}
    (h : List.Pairwise (fun a b => b.length ≤ a.length) l) (hw : w.length = n) :
    (insertByLen w l).filter (fun x => x.length == n) =
      l.filter (fun x => x.length == n) ++ [w] := by
  induction l with
  | nil => simp [insertByLen, List.filter, hw]
  | cons x xs ih =>
    rcases List.pairwise_cons.mp h with ⟨hx, hxs⟩
    simp only [insertByLen]
    by_cases hlt : x.length < w.length
    · rw [if_pos hlt]
      have hxne : (x.length == n) = false := by
        simp only [beq_eq_false_iff_ne]
        omega
      have hxs0 : xs.filter (fun x => x.length == n) = [] := by
        rw [List.filter_eq_nil_iff]
        intro y hy
        have := hx y hy
        simp only [beq_iff_eq]
        omega
      simp [List.filter, hw, hxne, hxs0]
    · rw [if_neg hlt]
      by_cases hxn : (x.length == n) = true
      · simp [List.filter, hxn, ih hxs]
      · have hxn' : (x.length == n) = false := by
          rcases hb : (x.length == n)
          · rfl
          · exact absurd hb hxn
        simp [List.filter, hxn', ih hxs]

theorem filter_insertByLen_ne {w : String} {l : List String} {n : Nat}
    (hw : w.length ≠ n) :
    (insertByLen w l).filter (fun x => x.length == n) =
      l.filter (fun x => x.length == n) := by
  have hwne : (w.length == n) = false := by
    simp only [beq_eq_false_iff_ne]
    exact hw
  induction l with
  | nil => simp [insertByLen, List.filter, hwne]
  | cons x xs ih =>
    simp only [insertByLen]
    by_cases hlt : x.length < w.length
    · rw [if_pos hlt]
      simp [List.filter, hwne]
    · rw [if_neg hlt]
      by_cases hxn : (x.length == n) = true
      · simp [List.filter, hxn, ih]
      · have hxn' : (x.length == n) = false := by
          rcases hb : (x.length == n)
          · rfl
          · exact absurd hb hxn
        simp [List.filter, hxn', ih]

theorem pairwise_sortFold : ∀ (l acc : List String),
    List.Pairwise (fun a b => b.length ≤ a.length) acc →
    List.Pairwise (fun a b => b.length ≤ a.length)
      (l.foldl (fun acc w => insertByLen w acc) acc) := by
  intro l
  induction l with
  | nil => intro acc h; exact h
  | cons w ws ih =>
    intro acc h
    exact ih (insertByLen w acc) (pairwise_insertByLen h)

theorem filter_sortFold : ∀ (l acc : List String) (n : Nat),
    List.Pairwise (fun a b => b.length ≤ a.length) acc →
    (l.foldl (fun acc w => insertByLen w acc) acc).filter (fun x => x.length == n) =
      acc.filter (fun x => x.length == n) ++ l.filter (fun x => x.length == n) := by
  intro l
  induction l with
  | nil => intro acc n _; simp
  | cons w ws ih =>
    intro acc n h
    have step := ih (insertByLen w acc) n (pairwise_insertByLen h)
    rw [List.foldl_cons]
    rw [step]
    by_cases hw : w.length = n
    · rw [filter_insertByLen_eq h hw]
      have hwn : (w.length == n) = true := by simp [hw]
      simp [List.filter, hwn]
    · rw [filter_insertByLen_ne hw]
      have hwn : (w.length == n) = false := by
        simp only [beq_eq_false_iff_ne]
        exact hw
      simp [List.filter, hwn]

theorem sortKeysDesc_pairwise (l : List String) :
    List.Pairwise (fun a b => b.length ≤ a.length) (sortKeysDesc l) :=
  pairwise_sortFold l [] List.Pairwise.nil

theorem sortKeysDesc_stable (l : List String) (n : Nat) :
    (sortKeysDesc l).filter (fun x => x.length == n) =
      l.filter (fun x => x.length == n) := by
  unfold sortKeysDesc
  rw [filter_sortFold l [] n List.Pairwise.nil]
  rfl

/-! Shared helper lemmas for the plural fallback. -/

theorem resolveColor_plural_hit (km : List (String × String)) (o : ColoringOptions)
    (m c : String) (h1 : dictGet km (lookupKey o m) = none)
    (h2 : o.bold_plurals = true) (h3 : endsWithS m = true)
    (h4 : dictGet km (lookupKey o (strDropLast m)) = some c) :
    resolveColor km o m = (some c, true) := by
  unfold resolveColor
  rw [h1]
  simp [h2, h3, h4]

theorem replOne_plural_hit (km : List (String × String)) (o : ColoringOptions)
    (m c : String) (h1 : dictGet km (lookupKey o m) = none)
    (h2 : o.bold_plurals = true) (h3 : endsWithS m = true)
    (h4 : dictGet km (lookupKey o (strDropLast m)) = some c)
    (h5 : (styleBits o c).isEmpty = false) :
    replOne km o m = (wrapSpan (joinSpace (styleBits o c)) m, true) := by
  unfold replOne
  rw [resolveColor_plural_hit km o m c h1 h2 h3 h4]
  simp [h5]

/-! Concrete tables, options and fragments used by the claims. -/

def exCatTable : List (String × String) := [("cat", "#111")]

def exBugTable : List (String × String) := [("bug", "#0a0")]

def exTieTable : List (String × String) := [("cat", "#111"), ("caterpillar", "#222")]

def exRedTable : List (String × String) := [("red", "#f00")]

/-- Defaults of the Python dataclass / deck picker. -/
def exOptsDefault : ColoringOptions := ⟨true, true, true, false, true, true⟩

/-- wholeWords=false, boldPlurals=false, colorize only. -/
def exOptsSubstr : ColoringOptions := ⟨false, true, false, false, false, true⟩

/-- wholeWords=true, boldPlurals=true, colorize only. -/
def exOptsPluralFB : ColoringOptions := ⟨true, true, false, false, true, true⟩

/-- colorize=bold=italic=false with matching rules unchanged. -/
def exOptsAllOff : ColoringOptions := ⟨true, true, false, false, true, false⟩

/-- Output of a previous default-options run on "the cat". -/
def exCatStyled : String :=
  "the <span class=\"cc-color\" style=\"color:#111; font-weight:bold;\">cat</span>"

/-- A fragment consisting of one previously applied wrapper span. -/
def exSpanBug : String := "<span class=\"cc-color\" style=\"color:#0a0;\">bug</span>"

/-! The claims. -/

/-- C1, counterexample: annotating twice with the same pattern and options
does NOT give `replacements == 0` on the second call.  With table
{cat: #111} and default options on "the cat", the second run re-wraps the
match it just stripped, so it reports 1 replacement (the html, however, is
the same). -/
theorem c1_counterexample :
    (annotateT exCatTable exOptsDefault
        (annotateT exCatTable exOptsDefault "the cat").1).2 = 1 ∧
    (annotateT exCatTable exOptsDefault
        (annotateT exCatTable exOptsDefault "the cat").1).1 =
      (annotateT exCatTable exOptsDefault "the cat").1 := by
  constructor
  · decide
  · decide

/-- C1 (amended): under a fixed pattern and options, a second run returns
exactly the same result pair as the first run — the same html (so markup
never nests or accumulates) and the same replacement count as the first
call, not 0 — whenever stripping the first run's output recovers the
stripped original input (which holds for ordinary fragments, and can only
fail when the fragment or a colour value contains malformed `cc-color`
markup). -/
theorem c1_amended (t : List (String × String)) (o : ColoringOptions) (h : String)
    (hs : stripAnnotations (annotateT t o h).1 = stripAnnotations h) :
    annotateT t o (annotateT t o h).1 = annotateT t o h := by
  have h1 := annotateT_eq_core t o ((annotateT t o h).1)
  have h2 := annotateT_eq_core t o h
  rw [h1, hs, ← h2]

/-- Witness for C1 (amended) at table {cat: #111}, default options,
fragment "the cat". -/
theorem c1_amended_witness :
    annotateT exCatTable exOptsDefault
        (annotateT exCatTable exOptsDefault "the cat").1 =
      annotateT exCatTable exOptsDefault "the cat" :=
  c1_amended exCatTable exOptsDefault "the cat" (by decide)

/-- C2, counterexample: `replacements == 0` does not imply the returned
html equals the input.  A fragment that is one previously applied wrapper
span, with a table matching nothing in it, returns count 0 but the
normalised (wrapper-stripped) text, not the original fragment. -/
theorem c2_counterexample :
    (annotateT exCatTable exOptsDefault exSpanBug).2 = 0 ∧
    (annotateT exCatTable exOptsDefault exSpanBug).1 ≠ exSpanBug := by
  constructor
  · decide
  · decide

/-- C2 (amended): whenever `annotate` returns `replacements == 0`, the
returned html is the wrapper-stripped (normalised) input; it equals the
original fragment exactly when stripping leaves the fragment unchanged
(in particular for any fragment with no prior wrapper spans). -/
theorem c2_amended (t : List (String × String)) (o : ColoringOptions) (h : String)
    (h0 : (annotateT t o h).2 = 0) :
    (annotateT t o h).1 = stripAnnotations h := by
  rw [annotateT_eq_core t o h] at h0 ⊢
  exact annotateStripped_fst_of_snd_zero _ _ _ _ h0

/-- Witness for C2 (amended) at table {cat: #111}, default options,
fragment "xyz". -/
theorem c2_amended_witness :
    (annotateT exCatTable exOptsDefault "xyz").1 = stripAnnotations "xyz" :=
  c2_amended exCatTable exOptsDefault "xyz" (by decide)

/-- C3: the compiler sorts the table's keys by character length descending
(`sortKeysDesc` yields a pairwise length-descending list), the sort is
stable (words of each fixed length keep their original relative order),
and on table {cat: #111, caterpillar: #222} with wholeWords=false,
boldPlurals=false, "the caterpillar ran" wraps "caterpillar" in its
entirety with #222 and does not wrap "cat" inside it. -/
theorem c3_sort_and_tiebreak :
    (∀ l : List String,
      List.Pairwise (fun a b => b.length ≤ a.length) (sortKeysDesc l)) ∧
    (∀ (l : List String) (n : Nat),
      (sortKeysDesc l).filter (fun x => x.length == n) =
        l.filter (fun x => x.length == n)) ∧
    annotateT exTieTable exOptsSubstr "the caterpillar ran" =
      ("the <span class=\"cc-color\" style=\"color:#222;\">caterpillar</span> ran", 1) :=
  ⟨sortKeysDesc_pairwise, sortKeysDesc_stable, by decide⟩

/-- C4: the alternatives emitted for a word follow the wholeWords ×
boldPlurals policy exactly — (true,true): boundary word and boundary
word+s; (true,false): boundary word only; (false,true): bare word and bare
word+s; (false,false): bare word with a `(?!s)` lookahead — and with table
{bug: #0a0}, wholeWords=false, boldPlurals=false, input "bugs" nothing is
wrapped and replacements = 0. -/
theorem c4_alternative_policy :
    (∀ (w c : String) (ci b i cz : Bool),
      (build_combined_regex [(w, c)] ⟨true, ci, b, i, true, cz⟩).1.alts =
        [⟨w, true, true, false⟩, ⟨w ++ "s", true, true, false⟩]) ∧
    (∀ (w c : String) (ci b i cz : Bool),
      (build_combined_regex [(w, c)] ⟨true, ci, b, i, false, cz⟩).1.alts =
        [⟨w, true, true, false⟩]) ∧
    (∀ (w c : String) (ci b i cz : Bool),
      (build_combined_regex [(w, c)] ⟨false, ci, b, i, true, cz⟩).1.alts =
        [⟨w, false, false, false⟩, ⟨w ++ "s", false, false, false⟩]) ∧
    (∀ (w c : String) (ci b i cz : Bool),
      (build_combined_regex [(w, c)] ⟨false, ci, b, i, false, cz⟩).1.alts =
        [⟨w, false, false, true⟩]) ∧
    annotateT exBugTable exOptsSubstr "bugs" = ("bugs", 0) := by
  refine ⟨?_, ?_, ?_, ?_, by decide⟩ <;> exact fun w c ci b i cz => rfl

/-- C5: when `boldPlurals` is on and a matched text misses the key map but
ends in s (any case), the lookup is retried on the stem, a hit resolves to
the stem's colour and is wrapped exactly like a base match (the style
depends only on options and colour, never on the plural flag) with the
matched text kept verbatim inside the span; concretely, table {bug: #0a0}
with wholeWords, boldPlurals, colorize=true, bold=italic=false on
"one bug, many bugs" wraps both "bug" and "bugs" with color:#0a0; and
returns replacements = 2. -/
theorem c5_plural_fallback :
    (∀ (km : List (String × String)) (o : ColoringOptions) (m c : String),
      dictGet km (lookupKey o m) = none → o.bold_plurals = true →
      endsWithS m = true → dictGet km (lookupKey o (strDropLast m)) = some c →
      resolveColor km o m = (some c, true)) ∧
    (∀ (km : List (String × String)) (o : ColoringOptions) (m c : String),
      dictGet km (lookupKey o m) = none → o.bold_plurals = true →
      endsWithS m = true → dictGet km (lookupKey o (strDropLast m)) = some c →
      (styleBits o c).isEmpty = false →
      replOne km o m = (wrapSpan (joinSpace (styleBits o c)) m, true)) ∧
    annotateT exBugTable exOptsPluralFB "one bug, many bugs" =
      ("one <span class=\"cc-color\" style=\"color:#0a0;\">bug</span>, many <span class=\"cc-color\" style=\"color:#0a0;\">bugs</span>", 2) :=
  ⟨resolveColor_plural_hit, replOne_plural_hit, by decide⟩

/-- Witness for C5 at key map {bug: #0a0} and matched text "bugs". -/
theorem c5_plural_fallback_witness :
    resolveColor exBugTable exOptsPluralFB "bugs" = (some "#0a0", true) ∧
    replOne exBugTable exOptsPluralFB "bugs" =
      ("<span class=\"cc-color\" style=\"color:#0a0;\">bugs</span>", true) :=
  ⟨c5_plural_fallback.1 exBugTable exOptsPluralFB "bugs" "#0a0"
      (by decide) rfl (by decide) (by decide),
   c5_plural_fallback.2.1 exBugTable exOptsPluralFB "bugs" "#0a0"
      (by decide) rfl (by decide) (by decide) (by decide)⟩

/-- C6: tag chunks (odd positions of the tag/text split) are passed
through verbatim with no match attempted and nothing counted, so a
configured word inside a tag — e.g. in an attribute value — is never
wrapped, and no match can span a tag boundary because the pattern only
ever runs inside a single text chunk; concretely, `<a title="red">x</a>`
with table {red: #f00} comes back unchanged with count 0. -/
theorem c6_tag_chunks :
    (∀ (P : Compiled) (km : List (String × String)) (o : ColoringOptions)
        (i : Nat) (chunk : List Char), i % 2 = 1 →
      processChunk P km o i chunk = (chunk, 0, 0)) ∧
    annotateT exRedTable exOptsDefault "<a title=\"red\">x</a>" =
      ("<a title=\"red\">x</a>", 0) := by
  refine ⟨?_, by decide⟩
  intro P km o i chunk h
  unfold processChunk
  have hi : (i % 2 == 0) = false := by simp [h]
  have hg : (i % 2 == 0 && !chunk.isEmpty && !containsSub ccMarker chunk) = false := by
    rw [hi]
    rfl
  rw [hg]
  rfl

/-- Witness for C6: an odd-indexed (tag) chunk is returned untouched. -/
theorem c6_tag_chunks_witness :
    processChunk (build_combined_regex exCatTable exOptsDefault).1
        (build_combined_regex exCatTable exOptsDefault).2 exOptsDefault 1 "cat".data =
      ("cat".data, 0, 0) :=
  c6_tag_chunks.1 _ _ _ 1 "cat".data rfl

/-- C7, counterexample: an all-toggles-off run on a previously styled
fragment does strip the wrapper and leaves plain text, but it returns
`replacements = 0` even though one span was unwrapped (the html changed),
so the count does not reflect the unwrap. -/
theorem c7_counterexample :
    (annotateT exCatTable exOptsAllOff exCatStyled).1 = "the cat" ∧
    (annotateT exCatTable exOptsAllOff exCatStyled).2 = 0 ∧
    exCatStyled ≠ "the cat" := by
  refine ⟨by decide, by decide, by decide⟩

/-- C7 (amended): with colorize=bold=italic=false (matching rules
arbitrary), `annotate` returns the wrapper-stripped fragment — every prior
wrapper span is removed, every match is left as plain text, no wrapper
appears in the output — and `replacements` is always 0: the unwrap is
signalled by the returned html differing from the input, not by the
count. -/
theorem c7_amended (h : String) (t : List (String × String)) (ww ci bp : Bool) :
    annotateT t ⟨ww, ci, false, false, bp, false⟩ h = (stripAnnotations h, 0) := by
  rw [annotateT_eq_core]
  exact annotateStripped_of_never_counted _ _ _ _
    (fun m => by rw [replOne_alloff _ ⟨ww, ci, false, false, bp, false⟩ m rfl rfl rfl])

/-- C8: compiling an empty table produces the textual pattern `(?!x)x` —
a valid, non-empty, never-matching pattern: no alternative ever matches at
any position — and annotating any fragment with it is a defined no-op:
count 0 and the html only normalised (wrapper-stripped), never an
error. -/
theorem c8_empty_table :
    (∀ o : ColoringOptions,
      patternString (build_combined_regex [] o).1.alts = "(?!x)x") ∧
    (∀ (o : ColoringOptions) (prev : Option Char) (rest : List Char),
      firstMatch (build_combined_regex [] o).1.ci
        (build_combined_regex [] o).1.alts prev rest = none) ∧
    (∀ (o : ColoringOptions) (h : String),
      annotateT [] o h = (stripAnnotations h, 0)) := by
  refine ⟨fun o => rfl, fun o prev rest => rfl, fun o h => ?_⟩
  rw [annotateT_eq_core]
  exact annotateStripped_noalts _ _ _ _ rfl

/-- C9: the engine is total — a failed colour lookup safely leaves the
matched text unchanged and uncounted, the compiled pattern is never the
empty (always-matching) pattern for any table and options, and `annotate`
returns a defined (html, replacements) pair on every input. -/
theorem c9_totality :
    (∀ (km : List (String × String)) (o : ColoringOptions) (m : String),
      (resolveColor km o m).1 = none → replOne km o m = (m, false)) ∧
    (∀ (t : List (String × String)) (o : ColoringOptions),
      patternString (build_combined_regex t o).1.alts ≠ "") ∧
    (∀ (h : String) (t : List (String × String)) (o : ColoringOptions),
      ∃ (s : String) (n : Nat), annotateT t o h = (s, n)) := by
  refine ⟨?_, patternString_build_ne, fun h t o => ⟨_, _, rfl⟩⟩
  intro km o m hres
  unfold replOne
  rw [hres]

/-- Witness for C9: a lookup miss returns the text unchanged. -/
theorem c9_totality_witness :
    replOne [] exOptsDefault "x" = ("x", false) :=
  c9_totality.1 [] exOptsDefault "x" (by decide)

/-- C10: a text chunk that still contains the literal substring
`cc-color` is skipped entirely: it is returned verbatim with no match
attempted and nothing counted, for every pattern and options. -/
theorem c10_cccolor_skip (P : Compiled) (km : List (String × String))
    (o : ColoringOptions) (i : Nat) (chunk : List Char)
    (h : containsSub ccMarker chunk = true) :
    processChunk P km o i chunk = (chunk, 0, 0) := by
  unfold processChunk
  have hg : (i % 2 == 0 && !chunk.isEmpty && !containsSub ccMarker chunk) = false := by
    rw [h]
    simp
  rw [hg]
  rfl

/-- Witness for C10: "cat cc-color" contains the marker, so even the
matching word "cat" inside it is not wrapped. -/
theorem c10_cccolor_skip_witness :
    processChunk (build_combined_regex exCatTable exOptsDefault).1
        (build_combined_regex exCatTable exOptsDefault).2 exOptsDefault 0
        "cat cc-color".data =
      ("cat cc-color".data, 0, 0) :=
  c10_cccolor_skip _ _ _ 0 "cat cc-color".data (by decide)

end ColorCoding
